import Mathlib

/-!
Verification of the repository-pool and composite row-driver core
(`repository_pool.go`) of the gitbase repository.

The Go code is shallowly embedded:

* The `repository` interface values held by the pool become the `Repo`
  record (id, path, kind); `gitRepo`/`sivaRepo` build the two variants.
* The Go map `map[string]repository` becomes an association list with
  `lookupRepo`; `Add` keeps keys unique, so first-match lookup coincides
  with map lookup.  A mutating method becomes a function returning the
  new pool (paired with the `error` result where the method has one).
* External effects are oracles passed in explicitly: `gitOpen` stands for
  the go-git open performed by `repository.Repo()` (it returns an opaque
  handle number or an opaque error string), `FSModel.readDir` /
  `FSModel.plainOpen` stand for `ioutil.ReadDir` / `git.PlainOpen`.
* `logrus` logging is dropped (it changes no state); the `Close()` calls
  performed on sub-iterators are recorded in an explicit `closedLog`
  trace so that claims about closing are statable.
* A per-repository row iterator (`RowRepoIter`) is a list of pending
  outcomes (`RowEvent`): a consumed `.row r` is a yielded row, a consumed
  `.err e` is a `Next()` call returning error `e`, and an exhausted list
  returns `io.EOF` forever, matching the sub-iterator contract.
* `sql.Row` is abstracted to an integer, the cancellation signal
  `ctx.Done()` to a boolean of the environment, the `sync.Mutex` to the
  sequential semantics of the functions.
-/

namespace Gitbase

abbrev Row := Int

inductive RepoKind
  | git
  | siva
  deriving DecidableEq

/-- A `repository` interface value as stored by the pool: the two concrete
implementations (`gitRepository`, `sivaRepository`) both carry an id and a
path, distinguished only by which open procedure they use. -/
structure Repo where
  id : String
  path : String
  kind : RepoKind
  deriving DecidableEq

/-- `gitRepo(id, path)` from the source. -/
def gitRepo (id path : String) : Repo := ⟨id, path, .git⟩

/-- `sivaRepo(id, path)` from the source. -/
def sivaRepo (id path : String) : Repo := ⟨id, path, .siva⟩

/-- A `*Repository` handle: `NewRepository(id, repo)` pairs the id with the
opened go-git object, abstracted to an opaque number. -/
structure Repository where
  id : String
  obj : Nat
  deriving DecidableEq

/-- The error values the embedded code produces.  `eof` is `io.EOF`,
`sessionCanceled` is `ErrSessionCanceled`, `alreadyRegistered` is
`errRepoAlreadyRegistered` (carrying the existing repository's path),
`cannotOpen` is `errRepoCannotOpen` (wrapping cause and path),
`poolRepoNotFound` is `ErrPoolRepoNotFound`, and `gitErr` is an opaque
error coming from an external call (go-git open, a sub-iterator, ...). -/
inductive GbError
  | eof
  | sessionCanceled
  | alreadyRegistered (path : String)
  | cannotOpen (cause path : String)
  | poolRepoNotFound (id : String)
  | gitErr (msg : String)
  deriving DecidableEq

/-- `RepositoryPool`: the `map[string]repository` (as an association list
with unique keys) together with `idOrder`. -/
structure RepositoryPool where
  repositories : List (String × Repo)
  idOrder : List String
  deriving DecidableEq

/-- `NewRepositoryPool()`. -/
def newRepositoryPool : RepositoryPool := ⟨[], []⟩

/-- Association-list lookup, modelling Go's `p.repositories[id]`. -/
def lookupRepo : List (String × Repo) → String → Option Repo
  | [], _ => none
  | (k, r) :: rest, id => if k = id then some r else lookupRepo rest id

/-- `RepositoryPool.Add`: fails with `alreadyRegistered(existing.Path())` if
the id is taken, else appends the id to `idOrder` and inserts into the map.
The pool component of the result is the (un)changed receiver. -/
def RepositoryPool.add (p : RepositoryPool) (r : Repo) :
    Except GbError Unit × RepositoryPool :=
  match lookupRepo p.repositories r.id with
  | some r0 => (.error (.alreadyRegistered r0.path), p)
  | none => (.ok (), ⟨p.repositories ++ [(r.id, r)], p.idOrder ++ [r.id]⟩)

/-- Repeated `Add`, stopping at the first failure: a pool "built from N
successful registrations" is a pool with `addAll` from the empty pool
returning `.ok`. -/
def RepositoryPool.addAll (p : RepositoryPool) : List Repo → Except GbError RepositoryPool
  | [] => .ok p
  | r :: rs =>
    match p.add r with
    | (.error e, _) => .error e
    | (.ok _, p') => p'.addAll rs

/-- `RepositoryPool.GetRepo`: looks the id up and calls `r.Repo()`.  The
open performed by `r.Repo()` is the oracle `g`; on success the handle keeps
the backend's id (`NewRepository(r.id, repo)`). -/
def RepositoryPool.getRepo (p : RepositoryPool) (g : Repo → Except String Nat)
    (id : String) : Except GbError Repository :=
  match lookupRepo p.repositories id with
  | none => .error (.poolRepoNotFound id)
  | some r =>
    match g r with
    | .error e => .error (.gitErr e)
    | .ok o => .ok ⟨r.id, o⟩

/-- `RepositoryPool.GetPos`: `io.EOF` when the position is out of range or
the slot holds the empty id, otherwise `GetRepo`.  (Go indexes
`p.idOrder[pos]` under `pos < len(p.repositories)`; the two lengths agree
for every pool built by `Add`, and the out-of-sync case is totalized with
`getD`.) -/
def RepositoryPool.getPos (p : RepositoryPool) (g : Repo → Except String Nat)
    (pos : Nat) : Except GbError Repository :=
  if p.repositories.length ≤ pos then .error .eof
  else
    let id := p.idOrder.getD pos ""
    if id = "" then .error .eof
    else p.getRepo g id

/-- `filepath.Join` on two components, without the path cleaning Go applies;
exact for the inputs appearing here (nonempty components free of `.`, `..`
and duplicate separators). -/
def pathJoin (a b : String) : String :=
  if a = "" then b else if b = "" then a else a ++ "/" ++ b

/-- `strings.HasSuffix`, on the underlying character lists. -/
def hasSuffix (s suff : String) : Bool :=
  suff.data.isSuffixOf s.data

def splitSegsAux : List Char → List Char → List (List Char)
  | [], acc => [acc.reverse]
  | c :: cs, acc =>
    if c = '/' then acc.reverse :: splitSegsAux cs [] else splitSegsAux cs (c :: acc)

def joinSegs : List (List Char) → List Char
  | [] => []
  | [s] => s
  | s :: rest => s ++ '/' :: joinSegs rest

/-- Modelled from the spec: `IDFromPath` is used by `AddDir` but defined
outside the given sources; per the spec, `idPrefixStrip` "shortens ids
derived from deep trees by removing a fixed number of leading path
segments". -/
def IDFromPath (strip : Nat) (path : String) : String :=
  ⟨joinSegs ((splitSegsAux path.data []).drop strip)⟩

/-- An `os.FileInfo` as far as the scanning code inspects it. -/
structure FileEntry where
  name : String
  isDir : Bool
  deriving DecidableEq

/-- The filesystem oracles consumed by the registration helpers:
`ioutil.ReadDir` and `git.PlainOpen` (of which only success/failure is
observed). -/
structure FSModel where
  readDir : String → Except String (List FileEntry)
  plainOpen : String → Except String Unit

/-- `RepositoryPool.AddGitWithID`: probe `git.PlainOpen(path)`, wrap a
failure in `cannotOpen`, else `Add(gitRepo(id, path))`. -/
def RepositoryPool.addGitWithID (fs : FSModel) (p : RepositoryPool)
    (id path : String) : Except GbError String × RepositoryPool :=
  match fs.plainOpen path with
  | .error e => (.error (.cannotOpen e path), p)
  | .ok _ =>
    match p.add (gitRepo id path) with
    | (.error e, p') => (.error e, p')
    | (.ok _, p') => (.ok path, p')

/-- The `for` loop of `AddDir`: non-directories are skipped; for a
directory the result of `AddGitWithID` is only logged, the loop always
continues with the returned pool. -/
def addDirLoop (fs : FSModel) (strip : Nat) (path : String) :
    RepositoryPool → List FileEntry → RepositoryPool
  | p, [] => p
  | p, f :: rest =>
    if f.isDir then
      addDirLoop fs strip path
        (RepositoryPool.addGitWithID fs p (IDFromPath strip (pathJoin path f.name))
          (pathJoin path f.name)).2 rest
    else
      addDirLoop fs strip path p rest

/-- `RepositoryPool.AddDir`: a `ReadDir` failure on `path` itself is
returned; otherwise the loop over the entries, which never fails. -/
def RepositoryPool.addDir (fs : FSModel) (p : RepositoryPool) (strip : Nat)
    (path : String) : Except String RepositoryPool :=
  match fs.readDir path with
  | .error e => .error e
  | .ok dirs => .ok (addDirLoop fs strip path p dirs)

/-- Exported `RepositoryPool.AddSivaFile`: the `.siva` suffix check only
emits a warning log, `Add` is called regardless, and `Add`'s error is
discarded — the function has no failure channel. -/
def RepositoryPool.AddSivaFile (p : RepositoryPool) (id path : String) :
    RepositoryPool :=
  (p.add (sivaRepo id path)).2

/-- Unexported `rowRepoIter`-side helper `addSivaFile(root, path, f)`: a
file (or one-level-deep directory) entry whose name ends in `.siva` is
registered under `filepath.Join(path, f.Name())` — used as both id and
path — with `Add`'s error discarded; other entries are only logged.  The
`relativeFileName` computed by the source feeds only those log messages
and is dropped here. -/
def RepositoryPool.addSivaFile (p : RepositoryPool) (root path : String)
    (f : FileEntry) : RepositoryPool :=
  if hasSuffix f.name ".siva" then
    (p.add (sivaRepo (pathJoin path f.name) (pathJoin path f.name))).2
  else p

/-- `addSivaDir` specialized at `recursive = false`: the recursive call in
the source is guarded by `f.IsDir() && recursive`, so with `recursive`
false every entry — directory or not — goes to `addSivaFile` and the loop
never fails after a successful `ReadDir`. -/
def RepositoryPool.addSivaDirFlat (fs : FSModel) (p : RepositoryPool)
    (root path : String) : Except String RepositoryPool :=
  match fs.readDir path with
  | .error e => .error e
  | .ok dirs => .ok (dirs.foldl (fun q f => q.addSivaFile root path f) p)

/-- The `for` loop of `addSivaDir` at `recursive = true`: a directory entry
is scanned with `recursive = false`, and an error from that scan (a failed
`ReadDir` of the subdirectory) is returned immediately, abandoning the
remaining entries; any other entry goes to `addSivaFile`. -/
def addSivaDirLoop (fs : FSModel) (root path : String) :
    RepositoryPool → List FileEntry → Except String RepositoryPool
  | p, [] => .ok p
  | p, f :: rest =>
    if f.isDir then
      match RepositoryPool.addSivaDirFlat fs p root (pathJoin path f.name) with
      | .error e => .error e
      | .ok p' => addSivaDirLoop fs root path p' rest
    else
      addSivaDirLoop fs root path (p.addSivaFile root path f) rest

/-- `RepositoryPool.AddSivaDir(path)` = `addSivaDir(path, path, true)`. -/
def RepositoryPool.AddSivaDir (fs : FSModel) (p : RepositoryPool)
    (path : String) : Except String RepositoryPool :=
  match fs.readDir path with
  | .error e => .error e
  | .ok dirs => addSivaDirLoop fs path path p dirs

/-- One pending outcome of a per-repository sub-iterator. -/
inductive RowEvent
  | row (r : Row)
  | err (e : GbError)
  deriving DecidableEq

/-- A `RowRepoIter` sub-iterator instance: an identity (so that `Close()`
calls on it can be traced) and its pending outcomes. -/
structure SubIter where
  sid : Nat
  events : List RowEvent
  deriving DecidableEq

/-- The sub-iterator's `Next()`: consume the next pending outcome; an
exhausted iterator keeps returning `io.EOF`. -/
def SubIter.next (it : SubIter) : Except GbError Row × SubIter :=
  match it.events with
  | [] => (.error .eof, it)
  | .row r :: rest => (.ok r, ⟨it.sid, rest⟩)
  | .err e :: rest => (.error e, ⟨it.sid, rest⟩)

/-- Everything `rowRepoIter.Next` reads but never writes: the session pool,
the open oracle, the sub-iterator factory `iter.NewIterator`, the session's
`SkipGitErrors` flag and the cancellation signal `ctx.Done()`. -/
structure DriverEnv where
  pool : RepositoryPool
  gitOpen : Repo → Except String Nat
  newIterator : Repository → Except GbError SubIter
  skipGitErrors : Bool
  canceled : Bool

/-- The mutable state of a `rowRepoIter`: the active sub-iterator (if any),
the embedded `RepositoryIter` position, and the trace of sub-iterator
`Close()` calls performed so far (instrumentation for the close claims). -/
structure DriverState where
  currRepoIter : Option SubIter
  repoPos : Nat
  closedLog : List Nat
  deriving DecidableEq

/-- Termination bookkeeping: how many `Next` loop iterations position `j`
can still cost once reached. -/
def repoCost (env : DriverEnv) (j : Nat) : Nat :=
  match env.pool.getPos env.gitOpen j with
  | .error _ => 1
  | .ok rep =>
    match env.newIterator rep with
    | .error _ => 1
    | .ok it => 2 + it.events.length

def futureCostAux (env : DriverEnv) : Nat → Nat → Nat
  | 0, _ => 0
  | n + 1, p => repoCost env p + futureCostAux env n (p + 1)

/-- Total remaining cost of the repositories from position `p` on. -/
def futureCost (env : DriverEnv) (p : Nat) : Nat :=
  futureCostAux env (env.pool.repositories.length - p) p

def curCost : Option SubIter → Nat
  | none => 0
  | some it => 1 + it.events.length

/-- Decreasing measure for the `for` loop inside `rowRepoIter.Next`. -/
def driverMeasure (env : DriverEnv) (st : DriverState) : Nat :=
  futureCost env st.repoPos + curCost st.currRepoIter

/-- `rowRepoIter.Next`: the full loop body of the source, one recursive
call per `continue`.  The pair returned is (result, state after the call);
on an error result the state is retained, as the Go iterator retains its
fields.  `i.repositoryIter.Next()` is inlined as `getPos` at `repoPos`
followed by the increment, which the source performs unconditionally, and
the call `i.currRepoIter.Next()` is `SubIter.next` inlined: an empty event
list is a `Next()` returning `io.EOF`, a leading `.row r` yields `r`, a
leading `.err e` returns `e` (dispatched exactly like the source: the
`io.EOF` comparison first, then `SkipGitErrors`, then surfacing). -/
def rowRepoIterNext (env : DriverEnv) (st : DriverState) :
    Except GbError Row × DriverState :=
  if env.canceled then
    (.error .sessionCanceled, st)
  else
    match hc : st.currRepoIter with
    | none =>
      match hg : env.pool.getPos env.gitOpen st.repoPos with
      | .error e =>
        if he : e = .eof then
          (.error .eof, { st with repoPos := st.repoPos + 1 })
        else if env.skipGitErrors then
          rowRepoIterNext env { st with repoPos := st.repoPos + 1 }
        else
          (.error e, { st with repoPos := st.repoPos + 1 })
      | .ok repo =>
        match hn : env.newIterator repo with
        | .error e =>
          if env.skipGitErrors then
            rowRepoIterNext env { st with repoPos := st.repoPos + 1 }
          else
            (.error e, { st with repoPos := st.repoPos + 1 })
        | .ok it =>
          match hs : it.events with
          | [] =>
            rowRepoIterNext env
              { st with repoPos := st.repoPos + 1, currRepoIter := none,
                        closedLog := st.closedLog ++ [it.sid] }
          | .row r :: rest =>
            (.ok r, { st with repoPos := st.repoPos + 1,
                              currRepoIter := some ⟨it.sid, rest⟩ })
          | .err e :: rest =>
            if he : e = .eof then
              rowRepoIterNext env
                { st with repoPos := st.repoPos + 1, currRepoIter := none,
                          closedLog := st.closedLog ++ [it.sid] }
            else if env.skipGitErrors then
              rowRepoIterNext env
                { st with repoPos := st.repoPos + 1,
                          currRepoIter := some ⟨it.sid, rest⟩ }
            else
              (.error e, { st with repoPos := st.repoPos + 1,
                                   currRepoIter := some ⟨it.sid, rest⟩ })
    | some it =>
      match hs : it.events with
      | [] =>
        rowRepoIterNext env
          { st with currRepoIter := none, closedLog := st.closedLog ++ [it.sid] }
      | .row r :: rest =>
        (.ok r, { st with currRepoIter := some ⟨it.sid, rest⟩ })
      | .err e :: rest =>
        if he : e = .eof then
          rowRepoIterNext env
            { st with currRepoIter := none, closedLog := st.closedLog ++ [it.sid] }
        else if env.skipGitErrors then
          rowRepoIterNext env { st with currRepoIter := some ⟨it.sid, rest⟩ }
        else
          (.error e, { st with currRepoIter := some ⟨it.sid, rest⟩ })
termination_by driverMeasure env st
decreasing_by
  · -- nil currRepoIter, non-EOF cursor error, skipping
    have hlt : st.repoPos < env.pool.repositories.length := by
      by_contra hge
      simp only [RepositoryPool.getPos, if_pos (Nat.le_of_not_lt hge)] at hg
      exact he (by injection hg.symm)
    have hfc : futureCost env st.repoPos
        = repoCost env st.repoPos + futureCost env (st.repoPos + 1) := by
      have h1 : env.pool.repositories.length - st.repoPos
          = (env.pool.repositories.length - (st.repoPos + 1)) + 1 := by omega
      simp only [futureCost, h1, futureCostAux]
    have hrc : repoCost env st.repoPos = 1 := by simp [repoCost, hg]
    simp only [driverMeasure, curCost, hc]
    omega
  · -- nil currRepoIter, NewIterator failed, skipping
    have hlt : st.repoPos < env.pool.repositories.length := by
      by_contra hge
      simp only [RepositoryPool.getPos, if_pos (Nat.le_of_not_lt hge)] at hg
      exact Except.noConfusion hg
    have hfc : futureCost env st.repoPos
        = repoCost env st.repoPos + futureCost env (st.repoPos + 1) := by
      have h1 : env.pool.repositories.length - st.repoPos
          = (env.pool.repositories.length - (st.repoPos + 1)) + 1 := by omega
      simp only [futureCost, h1, futureCostAux]
    have hrc : repoCost env st.repoPos = 1 := by simp [repoCost, hg, hn]
    simp only [driverMeasure, curCost, hc]
    omega
  · -- nil currRepoIter, fresh sub-iterator exhausted at once
    have hlt : st.repoPos < env.pool.repositories.length := by
      by_contra hge
      simp only [RepositoryPool.getPos, if_pos (Nat.le_of_not_lt hge)] at hg
      exact Except.noConfusion hg
    have hfc : futureCost env st.repoPos
        = repoCost env st.repoPos + futureCost env (st.repoPos + 1) := by
      have h1 : env.pool.repositories.length - st.repoPos
          = (env.pool.repositories.length - (st.repoPos + 1)) + 1 := by omega
      simp only [futureCost, h1, futureCostAux]
    have hrc : repoCost env st.repoPos = 2 + it.events.length := by
      simp [repoCost, hg, hn]
    simp only [driverMeasure, curCost, hc]
    omega
  · -- nil currRepoIter, fresh sub-iterator returned io.EOF explicitly
    have hlt : st.repoPos < env.pool.repositories.length := by
      by_contra hge
      simp only [RepositoryPool.getPos, if_pos (Nat.le_of_not_lt hge)] at hg
      exact Except.noConfusion hg
    have hfc : futureCost env st.repoPos
        = repoCost env st.repoPos + futureCost env (st.repoPos + 1) := by
      have h1 : env.pool.repositories.length - st.repoPos
          = (env.pool.repositories.length - (st.repoPos + 1)) + 1 := by omega
      simp only [futureCost, h1, futureCostAux]
    have hrc : repoCost env st.repoPos = 2 + it.events.length := by
      simp [repoCost, hg, hn]
    simp only [driverMeasure, curCost, hc]
    omega
  · -- nil currRepoIter, fresh sub-iterator erred, skipping
    have hlt : st.repoPos < env.pool.repositories.length := by
      by_contra hge
      simp only [RepositoryPool.getPos, if_pos (Nat.le_of_not_lt hge)] at hg
      exact Except.noConfusion hg
    have hfc : futureCost env st.repoPos
        = repoCost env st.repoPos + futureCost env (st.repoPos + 1) := by
      have h1 : env.pool.repositories.length - st.repoPos
          = (env.pool.repositories.length - (st.repoPos + 1)) + 1 := by omega
      simp only [futureCost, h1, futureCostAux]
    have hrc : repoCost env st.repoPos = 2 + it.events.length := by
      simp [repoCost, hg, hn]
    have hev : it.events.length = rest.length + 1 := by simp [hs]
    simp only [driverMeasure, curCost, hc]
    omega
  · -- active sub-iterator exhausted
    simp only [driverMeasure, curCost, hc]
    omega
  · -- active sub-iterator returned io.EOF explicitly
    simp only [driverMeasure, curCost, hc]
    omega
  · -- active sub-iterator erred, skipping
    have hev : it.events.length = rest.length + 1 := by simp [hs]
    simp only [driverMeasure, curCost, hc]
    omega

/-- `rowRepoIter.Close`: close the active sub-iterator, if any (then close
the shared factory iterator, which is outside this state). -/
def rowRepoIterClose (st : DriverState) : DriverState :=
  match st.currRepoIter with
  | some it => { st with closedLog := st.closedLog ++ [it.sid] }
  | none => st

/-- `fuel` calls to `rowRepoIter.Next`, collecting yielded rows until the
first error result (`io.EOF` included); `none` when `fuel` calls did not
reach an error. -/
def driveFuel (env : DriverEnv) : Nat → DriverState →
    Option (List Row × GbError × DriverState)
  | 0, _ => none
  | n + 1, st =>
    match rowRepoIterNext env st with
    | (.ok r, st') => (driveFuel env n st').map fun rest => (r :: rest.1, rest.2)
    | (.error e, st') => some ([], e, st')

/-- The composite driver, consumed by repeated `Next()` from `st`, yields
exactly `rows` and then stops with error `e`. -/
def driveRuns (env : DriverEnv) (st : DriverState) (rows : List Row)
    (e : GbError) : Prop :=
  ∃ n stF, ∀ m, n ≤ m → driveFuel env m st = some (rows, e, stF)

/-- Position `j` resolves and yields exactly the rows `rs`: the cursor
produces a repository, the factory accepts it, and the sub-iterator's
pending outcomes are the rows `rs` with no errors. -/
def goodAt (env : DriverEnv) (j : Nat) (rs : List Row) : Prop :=
  ∃ rep sid, env.pool.getPos env.gitOpen j = .ok rep ∧
    env.newIterator rep = .ok ⟨sid, rs.map RowEvent.row⟩

/-- Position `j` fails before yielding any row: either the repository
cannot be resolved/opened (a non-EOF cursor error) or the factory rejects
the opened repository. -/
def badAt (env : DriverEnv) (j : Nat) : Prop :=
  (∃ e, env.pool.getPos env.gitOpen j = .error e ∧ e ≠ .eof) ∨
  (∃ rep e, env.pool.getPos env.gitOpen j = .ok rep ∧ env.newIterator rep = .error e)

/-- What one entry of a position-spec list promises. -/
def SpecOK (env : DriverEnv) (j : Nat) : Option (List Row) → Prop
  | some rs => goodAt env j rs
  | none => env.skipGitErrors = true ∧ badAt env j

/-! Concrete fixtures used by witnesses and counterexamples -/

/-- Oracle that opens every backend successfully. -/
def openAll : Repo → Except String Nat := fun _ => .ok 0

/-- A backend registered under the empty-string id (allowed by `Add`). -/
def emptyIdRepo : Repo := gitRepo "" "/p0"

/-- The pool obtained by registering only `emptyIdRepo`. -/
def poolEmptyId : RepositoryPool := ⟨[("", emptyIdRepo)], [""]⟩

/-- A factory giving every repository a one-row iterator yielding row 1. -/
def oneRowIter : Repository → Except GbError SubIter := fun _ => .ok ⟨0, [.row 1]⟩

def envC1 : DriverEnv := ⟨poolEmptyId, openAll, oneRowIter, false, false⟩

def repoB : Repo := gitRepo "b" "/pb"

def poolEmptyIdB : RepositoryPool := ⟨[("", emptyIdRepo), ("b", repoB)], ["", "b"]⟩

/-- Oracle that fails to open the backend with id "b". -/
def openFailB : Repo → Except String Nat :=
  fun r => if r.id = "b" then .error "cannot open" else .ok 0

def envC3 : DriverEnv := ⟨poolEmptyIdB, openFailB, oneRowIter, true, false⟩

def envNoSkip : DriverEnv := ⟨newRepositoryPool, openAll, oneRowIter, false, false⟩

def envSkip : DriverEnv := ⟨newRepositoryPool, openAll, oneRowIter, true, false⟩

def envCanceled : DriverEnv := ⟨newRepositoryPool, openAll, oneRowIter, true, true⟩

def poolA : RepositoryPool := ⟨[("a", gitRepo "a" "/pa")], ["a"]⟩

def poolAB : RepositoryPool :=
  ⟨[("a", gitRepo "a" "/pa"), ("b", gitRepo "b" "/pb")], ["a", "b"]⟩

def reposW : List Repo := [gitRepo "a" "/pa", gitRepo "b" "/pb"]

def rowsOfW : String → List Row :=
  fun id => if id = "a" then [1, 2] else if id = "b" then [3] else []

def mkItW : Repository → Except GbError SubIter :=
  fun rep => .ok ⟨0, (rowsOfW rep.id).map RowEvent.row⟩

def reposC3W : List Repo := [gitRepo "a" "/pa", gitRepo "b" "/pb", gitRepo "c" "/pc"]

def poolC3W : RepositoryPool :=
  ⟨[("a", gitRepo "a" "/pa"), ("b", gitRepo "b" "/pb"), ("c", gitRepo "c" "/pc")],
    ["a", "b", "c"]⟩

def rowsOfC3W : String → List Row :=
  fun id => if id = "a" then [1] else if id = "c" then [2] else []

def mkItC3W : Repository → Except GbError SubIter :=
  fun rep => .ok ⟨0, (rowsOfC3W rep.id).map RowEvent.row⟩

/-- A sub-iterator whose first `Next()` fails with an opaque git error. -/
def subItErr : SubIter := ⟨5, [.err (.gitErr "boom")]⟩

/-- Archive scan: the root "/data" holds one subdirectory "sub" which holds
"sub/r2.siva". -/
def fs7 : FSModel :=
  ⟨fun p =>
    if p = "/data" then .ok [⟨"sub", true⟩]
    else if p = "/data/sub" then .ok [⟨"r2.siva", false⟩]
    else .ok [],
   fun _ => .ok ()⟩

def pool7 : RepositoryPool :=
  ⟨[("/data/sub/r2.siva", sivaRepo "/data/sub/r2.siva" "/data/sub/r2.siva")],
    ["/data/sub/r2.siva"]⟩

/-- Archive scan: the root "/r" holds an unreadable subdirectory "bad"
followed by an archive file "r1.siva". -/
def fs8 : FSModel :=
  ⟨fun p =>
    if p = "/r" then .ok [⟨"bad", true⟩, ⟨"r1.siva", false⟩]
    else if p = "/r/bad" then .error "permission denied"
    else .ok [],
   fun _ => .ok ()⟩

/-- Directory scan: the root "/g" holds subdirectories "x" (not openable as
a git repository) and "y" (openable). -/
def fs8b : FSModel :=
  ⟨fun p => if p = "/g" then .ok [⟨"x", true⟩, ⟨"y", true⟩] else .ok [],
   fun p => if p = "/g/y" then .ok () else .error "not a repository"⟩

def poolNotes : RepositoryPool :=
  ⟨[("notes.txt", sivaRepo "notes.txt" "/d/notes.txt")], ["notes.txt"]⟩

/-! Single-step equations for `rowRepoIterNext`

One lemma per branch of the loop body; a branch ending in `continue`
equates the call with the call on the post-`continue` state. -/

theorem next_canceled (env : DriverEnv) (st : DriverState)
    (h : env.canceled = true) :
    rowRepoIterNext env st = (.error .sessionCanceled, st) := by
  rw [rowRepoIterNext]
  simp [h]

theorem next_none_eof (env : DriverEnv) (st : DriverState)
    (hcanc : env.canceled = false) (hc : st.currRepoIter = none)
    (hg : env.pool.getPos env.gitOpen st.repoPos = .error .eof) :
    rowRepoIterNext env st = (.error .eof, { st with repoPos := st.repoPos + 1 }) := by
  rw [rowRepoIterNext]
  rw [if_neg (by simp [hcanc])]
  split
  case _ h1 =>
    split
    case _ e2 h2 =>
      rw [hg] at h2
      injection h2 with h2e
      subst h2e
      simp
    case _ repo2 h2 =>
      rw [hg] at h2
      cases h2
  case _ it2 h1 =>
    rw [hc] at h1
    cases h1

theorem next_none_err_skip (env : DriverEnv) (st : DriverState) (e : GbError)
    (hcanc : env.canceled = false) (hc : st.currRepoIter = none)
    (hg : env.pool.getPos env.gitOpen st.repoPos = .error e) (he : e ≠ .eof)
    (hskip : env.skipGitErrors = true) :
    rowRepoIterNext env st = rowRepoIterNext env { st with repoPos := st.repoPos + 1 } := by
  rw [rowRepoIterNext]
  rw [if_neg (by simp [hcanc])]
  split
  case _ h1 =>
    split
    case _ e2 h2 =>
      rw [hg] at h2
      injection h2 with h2e
      subst h2e
      simp [he, hskip]
    case _ repo2 h2 =>
      rw [hg] at h2
      cases h2
  case _ it2 h1 =>
    rw [hc] at h1
    cases h1

theorem next_none_err_stop (env : DriverEnv) (st : DriverState) (e : GbError)
    (hcanc : env.canceled = false) (hc : st.currRepoIter = none)
    (hg : env.pool.getPos env.gitOpen st.repoPos = .error e) (he : e ≠ .eof)
    (hskip : env.skipGitErrors = false) :
    rowRepoIterNext env st = (.error e, { st with repoPos := st.repoPos + 1 }) := by
  rw [rowRepoIterNext]
  rw [if_neg (by simp [hcanc])]
  split
  case _ h1 =>
    split
    case _ e2 h2 =>
      rw [hg] at h2
      injection h2 with h2e
      subst h2e
      simp [he, hskip]
    case _ repo2 h2 =>
      rw [hg] at h2
      cases h2
  case _ it2 h1 =>
    rw [hc] at h1
    cases h1

theorem next_none_mkerr_skip (env : DriverEnv) (st : DriverState)
    (rep : Repository) (e : GbError)
    (hcanc : env.canceled = false) (hc : st.currRepoIter = none)
    (hg : env.pool.getPos env.gitOpen st.repoPos = .ok rep)
    (hn : env.newIterator rep = .error e) (hskip : env.skipGitErrors = true) :
    rowRepoIterNext env st = rowRepoIterNext env { st with repoPos := st.repoPos + 1 } := by
  rw [rowRepoIterNext]
  rw [if_neg (by simp [hcanc])]
  split
  case _ h1 =>
    split
    case _ e2 h2 =>
      rw [hg] at h2
      cases h2
    case _ repo2 h2 =>
      rw [hg] at h2
      injection h2 with h2e
      subst h2e
      split
      case _ e2 h3 =>
        rw [hn] at h3
        injection h3 with h3e
        subst h3e
        simp [hskip]
      case _ it2 h3 =>
        rw [hn] at h3
        cases h3
  case _ it2 h1 =>
    rw [hc] at h1
    cases h1

theorem next_none_mkerr_stop (env : DriverEnv) (st : DriverState)
    (rep : Repository) (e : GbError)
    (hcanc : env.canceled = false) (hc : st.currRepoIter = none)
    (hg : env.pool.getPos env.gitOpen st.repoPos = .ok rep)
    (hn : env.newIterator rep = .error e) (hskip : env.skipGitErrors = false) :
    rowRepoIterNext env st = (.error e, { st with repoPos := st.repoPos + 1 }) := by
  rw [rowRepoIterNext]
  rw [if_neg (by simp [hcanc])]
  split
  case _ h1 =>
    split
    case _ e2 h2 =>
      rw [hg] at h2
      cases h2
    case _ repo2 h2 =>
      rw [hg] at h2
      injection h2 with h2e
      subst h2e
      split
      case _ e2 h3 =>
        rw [hn] at h3
        injection h3 with h3e
        subst h3e
        simp [hskip]
      case _ it2 h3 =>
        rw [hn] at h3
        cases h3
  case _ it2 h1 =>
    rw [hc] at h1
    cases h1

theorem next_none_ok_row (env : DriverEnv) (st : DriverState)
    (rep : Repository) (sid : Nat) (r : Row) (evs : List RowEvent)
    (hcanc : env.canceled = false) (hc : st.currRepoIter = none)
    (hg : env.pool.getPos env.gitOpen st.repoPos = .ok rep)
    (hn : env.newIterator rep = .ok ⟨sid, .row r :: evs⟩) :
    rowRepoIterNext env st =
      (.ok r, { st with repoPos := st.repoPos + 1, currRepoIter := some ⟨sid, evs⟩ }) := by
  rw [rowRepoIterNext]
  rw [if_neg (by simp [hcanc])]
  split
  case _ h1 =>
    split
    case _ e2 h2 =>
      rw [hg] at h2
      cases h2
    case _ repo2 h2 =>
      rw [hg] at h2
      injection h2 with h2e
      subst h2e
      split
      case _ e2 h3 =>
        rw [hn] at h3
        cases h3
      case _ it2 h3 =>
        rw [hn] at h3
        injection h3 with h3e
        subst h3e
        simp
  case _ it2 h1 =>
    rw [hc] at h1
    cases h1

theorem next_none_ok_end (env : DriverEnv) (st : DriverState)
    (rep : Repository) (sid : Nat)
    (hcanc : env.canceled = false) (hc : st.currRepoIter = none)
    (hg : env.pool.getPos env.gitOpen st.repoPos = .ok rep)
    (hn : env.newIterator rep = .ok ⟨sid, []⟩) :
    rowRepoIterNext env st =
      rowRepoIterNext env
        { st with repoPos := st.repoPos + 1, currRepoIter := none,
                  closedLog := st.closedLog ++ [sid] } := by
  rw [rowRepoIterNext]
  rw [if_neg (by simp [hcanc])]
  split
  case _ h1 =>
    split
    case _ e2 h2 =>
      rw [hg] at h2
      cases h2
    case _ repo2 h2 =>
      rw [hg] at h2
      injection h2 with h2e
      subst h2e
      split
      case _ e2 h3 =>
        rw [hn] at h3
        cases h3
      case _ it2 h3 =>
        rw [hn] at h3
        injection h3 with h3e
        subst h3e
        simp
  case _ it2 h1 =>
    rw [hc] at h1
    cases h1

theorem next_some_row (env : DriverEnv) (st : DriverState)
    (sid : Nat) (r : Row) (evs : List RowEvent)
    (hcanc : env.canceled = false) (hc : st.currRepoIter = some ⟨sid, .row r :: evs⟩) :
    rowRepoIterNext env st = (.ok r, { st with currRepoIter := some ⟨sid, evs⟩ }) := by
  rw [rowRepoIterNext]
  rw [if_neg (by simp [hcanc])]
  split
  case _ h1 =>
    rw [hc] at h1
    cases h1
  case _ it2 h1 =>
    rw [hc] at h1
    injection h1 with h1e
    subst h1e
    simp

theorem next_some_end (env : DriverEnv) (st : DriverState) (sid : Nat)
    (hcanc : env.canceled = false) (hc : st.currRepoIter = some ⟨sid, []⟩) :
    rowRepoIterNext env st =
      rowRepoIterNext env
        { st with currRepoIter := none, closedLog := st.closedLog ++ [sid] } := by
  rw [rowRepoIterNext]
  rw [if_neg (by simp [hcanc])]
  split
  case _ h1 =>
    rw [hc] at h1
    cases h1
  case _ it2 h1 =>
    rw [hc] at h1
    injection h1 with h1e
    subst h1e
    simp

theorem next_some_err_skip (env : DriverEnv) (st : DriverState)
    (sid : Nat) (e : GbError) (evs : List RowEvent)
    (hcanc : env.canceled = false) (hc : st.currRepoIter = some ⟨sid, .err e :: evs⟩)
    (he : e ≠ .eof) (hskip : env.skipGitErrors = true) :
    rowRepoIterNext env st = rowRepoIterNext env { st with currRepoIter := some ⟨sid, evs⟩ } := by
  rw [rowRepoIterNext]
  rw [if_neg (by simp [hcanc])]
  split
  case _ h1 =>
    rw [hc] at h1
    cases h1
  case _ it2 h1 =>
    rw [hc] at h1
    injection h1 with h1e
    subst h1e
    simp [he, hskip]

theorem next_some_err_stop (env : DriverEnv) (st : DriverState)
    (sid : Nat) (e : GbError) (evs : List RowEvent)
    (hcanc : env.canceled = false) (hc : st.currRepoIter = some ⟨sid, .err e :: evs⟩)
    (he : e ≠ .eof) (hskip : env.skipGitErrors = false) :
    rowRepoIterNext env st = (.error e, { st with currRepoIter := some ⟨sid, evs⟩ }) := by
  rw [rowRepoIterNext]
  rw [if_neg (by simp [hcanc])]
  split
  case _ h1 =>
    rw [hc] at h1
    cases h1
  case _ it2 h1 =>
    rw [hc] at h1
    injection h1 with h1e
    subst h1e
    simp [he, hskip]

/-! Pool lemmas -/

theorem getPos_ge (p : RepositoryPool) (g : Repo → Except String Nat) (pos : Nat)
    (h : p.repositories.length ≤ pos) : p.getPos g pos = .error .eof := by
  simp [RepositoryPool.getPos, h]

theorem lookupRepo_eq_none (l : List (String × Repo)) (id : String) :
    lookupRepo l id = none ↔ ∀ kv ∈ l, kv.1 ≠ id := by
  induction l with
  | nil => simp [lookupRepo]
  | cons kv rest ih =>
    obtain ⟨k, r⟩ := kv
    by_cases hk : k = id
    · simp [lookupRepo, hk]
    · simp [lookupRepo, hk, ih]

theorem addAll_sound :
    ∀ (rs : List Repo) (p q : RepositoryPool),
      p.repositories.map Prod.fst = p.idOrder →
      p.addAll rs = .ok q →
      q.repositories = p.repositories ++ rs.map (fun r => (r.id, r)) ∧
      q.idOrder = p.idOrder ++ rs.map Repo.id ∧
      (p.idOrder.Nodup → q.idOrder.Nodup) := by
  intro rs
  induction rs with
  | nil =>
    intro p q hk h
    rw [RepositoryPool.addAll] at h
    injection h with h
    subst h
    simp
  | cons r rest ih =>
    intro p q hk h
    rw [RepositoryPool.addAll] at h
    rcases hl : lookupRepo p.repositories r.id with _ | r0
    · rw [RepositoryPool.add, hl] at h
      have hfresh : r.id ∉ p.idOrder := by
        rw [← hk]
        intro hmem
        obtain ⟨kv, hkv, hfst⟩ := List.mem_map.mp hmem
        exact (lookupRepo_eq_none p.repositories r.id).mp hl kv hkv hfst
      have hk' : (RepositoryPool.mk (p.repositories ++ [(r.id, r)])
          (p.idOrder ++ [r.id])).repositories.map Prod.fst
          = (RepositoryPool.mk (p.repositories ++ [(r.id, r)])
              (p.idOrder ++ [r.id])).idOrder := by
        simp [hk]
      obtain ⟨h1, h2, h3⟩ := ih _ q hk' h
      refine ⟨by simp [h1], by simp [h2], ?_⟩
      intro hnd
      apply h3
      simp [List.nodup_append, hnd, hfresh]
    · rw [RepositoryPool.add, hl] at h
      cases h

theorem pool_from_addAll (rs : List Repo) (pool : RepositoryPool)
    (hadd : newRepositoryPool.addAll rs = .ok pool) :
    pool.repositories = rs.map (fun r => (r.id, r)) ∧
    pool.idOrder = rs.map Repo.id ∧ (rs.map Repo.id).Nodup := by
  have h := addAll_sound rs newRepositoryPool pool (by simp [newRepositoryPool]) hadd
  simp only [newRepositoryPool, List.nil_append] at h
  obtain ⟨h1, h2, h3⟩ := h
  refine ⟨h1, h2, ?_⟩
  have hq := h3 List.nodup_nil
  rwa [h2] at hq

theorem lookupRepo_map_self :
    ∀ (rs : List Repo), (rs.map Repo.id).Nodup →
      ∀ j (hj : j < rs.length),
        lookupRepo (rs.map fun r => (r.id, r)) (rs.get ⟨j, hj⟩).id
          = some (rs.get ⟨j, hj⟩) := by
  intro rs
  induction rs with
  | nil => intro _ j hj; simp at hj
  | cons r rest ih =>
    intro hnd j hj
    rw [List.map_cons, List.nodup_cons] at hnd
    cases j with
    | zero => simp [lookupRepo]
    | succ j' =>
      have hj' : j' < rest.length := by simpa using hj
      have hmem : (rest.get ⟨j', hj'⟩).id ∈ rest.map Repo.id :=
        List.mem_map_of_mem Repo.id (rest.get_mem j' hj')
      have hne : r.id ≠ (rest.get ⟨j', hj'⟩).id := by
        intro hEq
        exact hnd.1 (hEq ▸ hmem)
      have hih := ih hnd.2 j' hj'
      simp only [List.get_eq_getElem] at hih hne ⊢
      simp only [List.getElem_cons_succ, List.map_cons, lookupRepo]
      rw [if_neg hne]
      exact hih

theorem getPos_addAll (rs : List Repo) (pool : RepositoryPool)
    (g : Repo → Except String Nat)
    (hadd : newRepositoryPool.addAll rs = .ok pool)
    (hne : ∀ r ∈ rs, r.id ≠ "") :
    (∀ j (hj : j < rs.length),
      pool.getPos g j =
        match g (rs.get ⟨j, hj⟩) with
        | .error e => .error (.gitErr e)
        | .ok o => .ok ⟨(rs.get ⟨j, hj⟩).id, o⟩) ∧
    ∀ j, rs.length ≤ j → pool.getPos g j = .error .eof := by
  obtain ⟨hrepos, horder, hnd⟩ := pool_from_addAll rs pool hadd
  have hlen : pool.repositories.length = rs.length := by simp [hrepos]
  constructor
  · intro j hj
    have hid : pool.idOrder.getD j "" = (rs.get ⟨j, hj⟩).id := by
      rw [horder, List.getD_eq_getElem _ _ (by simpa using hj)]
      simp
    rw [RepositoryPool.getPos, if_neg (by omega)]
    simp only [hid]
    rw [if_neg (hne _ (rs.get_mem j hj))]
    rw [RepositoryPool.getRepo, hrepos, lookupRepo_map_self rs hnd j hj]
  · intro j hj
    exact getPos_ge pool g j (by omega)

/-! Fuelled multi-step driver runs -/

theorem driveFuel_congr (env : DriverEnv) (s1 s2 : DriverState)
    (h : rowRepoIterNext env s1 = rowRepoIterNext env s2) :
    ∀ n, driveFuel env n s1 = driveFuel env n s2 := by
  intro n
  cases n with
  | zero => rfl
  | succ n => rw [driveFuel, driveFuel, h]

theorem driveFuel_mono :
    ∀ (n : Nat) (env : DriverEnv) (st : DriverState)
      (out : List Row × GbError × DriverState),
      driveFuel env n st = some out → ∀ m, n ≤ m → driveFuel env m st = some out := by
  intro n
  induction n with
  | zero =>
    intro env st out h
    rw [driveFuel] at h
    cases h
  | succ n ih =>
    intro env st out h m hm
    obtain ⟨m', rfl⟩ : ∃ m', m = m' + 1 := ⟨m - 1, by omega⟩
    rw [driveFuel] at h ⊢
    rcases hx : rowRepoIterNext env st with ⟨res, st'⟩
    rw [hx] at h
    cases res with
    | ok r =>
      replace h : (driveFuel env n st').map (fun rest => (r :: rest.1, rest.2)) = some out := h
      show (driveFuel env m' st').map (fun rest => (r :: rest.1, rest.2)) = some out
      rcases hrest : driveFuel env n st' with _ | rest
      · rw [hrest] at h
        cases h
      · rw [hrest] at h
        rw [ih env st' rest hrest m' (by omega)]
        exact h
    | error e => exact h

theorem driveFuel_rows (env : DriverEnv) (hcanc : env.canceled = false) (sid : Nat) :
    ∀ (rs : List Row) (p : Nat) (L : List Nat) (n : Nat)
      (out : List Row × GbError × DriverState),
      driveFuel env n ⟨none, p, L ++ [sid]⟩ = some out →
      driveFuel env (rs.length + n) ⟨some ⟨sid, rs.map RowEvent.row⟩, p, L⟩ =
        some (rs ++ out.1, out.2) := by
  intro rs
  induction rs with
  | nil =>
    intro p L n out h
    have hcong := driveFuel_congr env ⟨some ⟨sid, []⟩, p, L⟩ ⟨none, p, L ++ [sid]⟩
      (next_some_end env ⟨some ⟨sid, []⟩, p, L⟩ sid hcanc rfl) n
    simpa [hcong] using h
  | cons r rs' ih =>
    intro p L n out h
    have hfuel : (r :: rs').length + n = (rs'.length + n) + 1 := by
      simp [List.length_cons]
      omega
    rw [hfuel, driveFuel, List.map_cons]
    rw [next_some_row env ⟨some ⟨sid, .row r :: rs'.map RowEvent.row⟩, p, L⟩ sid r
      (rs'.map RowEvent.row) hcanc rfl]
    show (driveFuel env (rs'.length + n)
        ⟨some ⟨sid, rs'.map RowEvent.row⟩, p, L⟩).map
        (fun rest => (r :: rest.1, rest.2)) = some (r :: rs' ++ out.1, out.2)
    rw [ih p L n out h]
    simp

theorem driveFuel_specs (env : DriverEnv) (hcanc : env.canceled = false) :
    ∀ (specs : List (Option (List Row))) (p : Nat) (L : List Nat),
      env.pool.repositories.length = p + specs.length →
      (∀ k (hk : k < specs.length), SpecOK env (p + k) (specs.get ⟨k, hk⟩)) →
      ∃ n stF, driveFuel env n ⟨none, p, L⟩ =
        some ((specs.map (fun s => s.getD [])).flatten, .eof, stF) := by
  intro specs
  induction specs with
  | nil =>
    intro p L hlen _
    refine ⟨1, ⟨none, p + 1, L⟩, ?_⟩
    have hnext := next_none_eof env ⟨none, p, L⟩ hcanc rfl
      (getPos_ge _ _ _ (by
        show env.pool.repositories.length ≤ p
        simp only [List.length_nil] at hlen
        omega))
    rw [driveFuel, hnext]
    simp
  | cons o rest ih =>
    intro p L hlen hspec
    have hlen' : env.pool.repositories.length = (p + 1) + rest.length := by
      simp only [List.length_cons] at hlen
      omega
    have hrest : ∀ k (hk : k < rest.length),
        SpecOK env ((p + 1) + k) (rest.get ⟨k, hk⟩) := by
      intro k hk
      have h := hspec (k + 1) (by simp only [List.length_cons]; omega)
      have harith : p + (k + 1) = (p + 1) + k := by omega
      rw [harith] at h
      simpa using h
    cases o with
    | none =>
      obtain ⟨hskip, hbad⟩ := by simpa [SpecOK] using hspec 0 (by simp)
      obtain ⟨n, stF, hrun⟩ := ih (p + 1) L hlen' hrest
      refine ⟨n, stF, ?_⟩
      have hb : rowRepoIterNext env ⟨none, p, L⟩ = rowRepoIterNext env ⟨none, p + 1, L⟩ := by
        rcases hbad with ⟨e, hg, hee⟩ | ⟨rep, e, hg, hn⟩
        · exact next_none_err_skip env ⟨none, p, L⟩ e hcanc rfl hg hee hskip
        · exact next_none_mkerr_skip env ⟨none, p, L⟩ rep e hcanc rfl hg hn hskip
      rw [driveFuel_congr env _ _ hb n, hrun]
      simp
    | some rs =>
      obtain ⟨rep, sid, hg, hn⟩ : goodAt env p rs := by
        simpa [SpecOK] using hspec 0 (by simp)
      obtain ⟨n, stF, hrun⟩ := ih (p + 1) (L ++ [sid]) hlen' hrest
      cases rs with
      | nil =>
        refine ⟨n, stF, ?_⟩
        have hb := next_none_ok_end env ⟨none, p, L⟩ rep sid hcanc rfl hg
          (by simpa using hn)
        rw [driveFuel_congr env _ _ hb n, hrun]
        simp
      | cons r rs' =>
        refine ⟨(rs'.length + n) + 1, stF, ?_⟩
        rw [List.map_cons] at hn
        rw [driveFuel]
        rw [next_none_ok_row env ⟨none, p, L⟩ rep sid r (rs'.map RowEvent.row) hcanc rfl hg hn]
        have hrows := driveFuel_rows env hcanc sid rs' (p + 1) L n _ hrun
        show (driveFuel env (rs'.length + n)
            ⟨some ⟨sid, rs'.map RowEvent.row⟩, p + 1, L⟩).map
            (fun rest => (r :: rest.1, rest.2))
          = some ((List.map (fun s => s.getD []) (some (r :: rs') :: rest)).flatten, .eof, stF)
        rw [hrows]
        simp


/-! Claim theorems -/

/-- C4: on every call to the composite driver's `Next()`, the cancellation
signal is checked before any state-machine transition; if it is set,
`Next()` returns `ErrSessionCanceled` immediately, with the state — whatever
it is — left untouched, and this holds for every environment, in particular
with fault tolerance (`SkipGitErrors`) enabled: cancellation is never
swallowed. -/
theorem c4_cancellation_first (env : DriverEnv) (st : DriverState)
    (h : env.canceled = true) :
    rowRepoIterNext env st = (.error .sessionCanceled, st) :=
  next_canceled env st h

/-- C4 witness: a cancelled environment with fault tolerance enabled and an
active sub-iterator still returns the cancellation failure with the state
unchanged. -/
theorem c4_witness :
    rowRepoIterNext envCanceled ⟨some ⟨7, [.row 3]⟩, 2, [1]⟩ =
      (.error .sessionCanceled, ⟨some ⟨7, [.row 3]⟩, 2, [1]⟩) :=
  c4_cancellation_first envCanceled ⟨some ⟨7, [.row 3]⟩, 2, [1]⟩ rfl

/-- C10: with fault tolerance enabled, when the active sub-iterator's
`Next()` returns an error other than `io.EOF`, the driver keeps that same
sub-iterator active — same identity `sid`, no `Close()` recorded, not
replaced — and the next loop iteration calls `Next()` on that same
sub-iterator (now past the failed event) again. -/
theorem c10_skip_keeps_subiter (env : DriverEnv) (st : DriverState)
    (sid : Nat) (e : GbError) (evs : List RowEvent)
    (hcanc : env.canceled = false) (hskip : env.skipGitErrors = true)
    (hc : st.currRepoIter = some ⟨sid, .err e :: evs⟩) (he : e ≠ .eof) :
    rowRepoIterNext env st =
      rowRepoIterNext env { st with currRepoIter := some ⟨sid, evs⟩ } :=
  next_some_err_skip env st sid e evs hcanc hc he hskip

/-- C10 witness: with `SkipGitErrors` on, a failing `Next()` of sub-iterator
5 leaves sub-iterator 5 active (nothing closed) and retries it. -/
theorem c10_witness :
    rowRepoIterNext envSkip ⟨some ⟨5, [.err (.gitErr "boom"), .row 2]⟩, 0, []⟩ =
      rowRepoIterNext envSkip ⟨some ⟨5, [.row 2]⟩, 0, []⟩ :=
  c10_skip_keeps_subiter envSkip ⟨some ⟨5, [.err (.gitErr "boom"), .row 2]⟩, 0, []⟩
    5 (.gitErr "boom") [.row 2] rfl rfl rfl (by simp)

/-- C2 counterexample: with fault tolerance disabled, when the active
sub-iterator (identity 5) fails with a non-EOF error, `Next()` surfaces the
error immediately but does NOT close the sub-iterator first: the returned
state still has sub-iterator 5 active and its `closedLog` trace is empty —
no `Close()` happened — contradicting the claim that the driver closes the
sub-iterator before surfacing the error. -/
theorem c2_counterexample :
    rowRepoIterNext envNoSkip ⟨some subItErr, 0, []⟩ =
      (.error (.gitErr "boom"), ⟨some ⟨5, []⟩, 0, []⟩) :=
  next_some_err_stop envNoSkip ⟨some subItErr, 0, []⟩ 5 (.gitErr "boom") []
    rfl rfl (by simp) rfl

/-- C2 (amended): with fault tolerance disabled, a non-EOF failure of the
active sub-iterator is surfaced immediately, but the sub-iterator is NOT
closed on the way out: it stays active in the driver state with no
`Close()` recorded, and it is closed only later, when the driver's own
`Close()` runs (second conjunct). -/
theorem c2_error_surfaces_subiter_stays_open (env : DriverEnv) (st : DriverState)
    (sid : Nat) (e : GbError) (evs : List RowEvent)
    (hcanc : env.canceled = false) (hskip : env.skipGitErrors = false)
    (hc : st.currRepoIter = some ⟨sid, .err e :: evs⟩) (he : e ≠ .eof) :
    rowRepoIterNext env st = (.error e, { st with currRepoIter := some ⟨sid, evs⟩ }) ∧
    rowRepoIterClose { st with currRepoIter := some ⟨sid, evs⟩ } =
      { st with currRepoIter := some ⟨sid, evs⟩,
                closedLog := st.closedLog ++ [sid] } :=
  ⟨next_some_err_stop env st sid e evs hcanc hc he hskip, by simp [rowRepoIterClose]⟩

/-- C2 witness: the amended behaviour at the concrete counterexample input:
the error surfaces with sub-iterator 5 still open, and the driver's
`Close()` is what closes it. -/
theorem c2_witness :
    rowRepoIterNext envNoSkip ⟨some subItErr, 1, []⟩ =
      (.error (.gitErr "boom"), ⟨some ⟨5, []⟩, 1, []⟩) ∧
    rowRepoIterClose ⟨some ⟨5, []⟩, 1, []⟩ = ⟨some ⟨5, []⟩, 1, [5]⟩ :=
  c2_error_surfaces_subiter_stays_open envNoSkip ⟨some subItErr, 1, []⟩
    5 (.gitErr "boom") [] rfl rfl rfl (by simp)

/-- C5: `Add` on a pool already holding the id fails with
`AlreadyRegistered` carrying the existing backend's path and returns the
pool completely unchanged — neither the id→backend mapping nor the ordered
id sequence moves; on a fresh id it appends the id to the order and inserts
the backend into the mapping in one step, with no partial state possible. -/
theorem c5_add_atomic (p : RepositoryPool) (r : Repo) :
    (∀ r0, lookupRepo p.repositories r.id = some r0 →
      p.add r = (.error (.alreadyRegistered r0.path), p)) ∧
    (lookupRepo p.repositories r.id = none →
      p.add r = (.ok (), ⟨p.repositories ++ [(r.id, r)], p.idOrder ++ [r.id]⟩)) := by
  constructor
  · intro r0 h
    simp [RepositoryPool.add, h]
  · intro h
    simp [RepositoryPool.add, h]

/-- C5 witness: re-registering id "a" fails with the existing path "/pa"
and leaves the pool untouched; registering fresh id "b" appends. -/
theorem c5_witness :
    poolA.add (gitRepo "a" "/other") = (.error (.alreadyRegistered "/pa"), poolA) ∧
    poolA.add (gitRepo "b" "/pb") =
      (.ok (), ⟨[("a", gitRepo "a" "/pa"), ("b", gitRepo "b" "/pb")], ["a", "b"]⟩) :=
  ⟨(c5_add_atomic poolA (gitRepo "a" "/other")).1 (gitRepo "a" "/pa") rfl,
   (c5_add_atomic poolA (gitRepo "b" "/pb")).2 rfl⟩

/-- C9: `AddSivaFile` adds the file under the given id for every id and
path — the `.siva` suffix check only controls a warning log, and the model
returns a pool with no error channel, as the source discards `Add`'s error:
a fresh id is registered (first conjunct, no suffix condition anywhere), a
duplicate id leaves the pool exactly as it was, with the failure silently
discarded (second conjunct). -/
theorem c9_addSivaFile_never_fails (p : RepositoryPool) (id path : String) :
    (lookupRepo p.repositories id = none →
      p.AddSivaFile id path =
        ⟨p.repositories ++ [(id, sivaRepo id path)], p.idOrder ++ [id]⟩) ∧
    (∀ r0, lookupRepo p.repositories id = some r0 →
      p.AddSivaFile id path = p) := by
  constructor
  · intro h
    simp [RepositoryPool.AddSivaFile, RepositoryPool.add, sivaRepo, h]
  · intro r0 h
    simp [RepositoryPool.AddSivaFile, RepositoryPool.add, sivaRepo, h]

/-- C9 witness: a file without the `.siva` suffix is registered anyway, and
re-adding the same id returns the pool unchanged (the duplicate error is
swallowed). -/
theorem c9_witness :
    newRepositoryPool.AddSivaFile "notes.txt" "/d/notes.txt" = poolNotes ∧
    poolNotes.AddSivaFile "notes.txt" "/d/notes.txt" = poolNotes :=
  ⟨(c9_addSivaFile_never_fails newRepositoryPool "notes.txt" "/d/notes.txt").1 rfl,
   (c9_addSivaFile_never_fails poolNotes "notes.txt" "/d/notes.txt").2
     (sivaRepo "notes.txt" "/d/notes.txt") rfl⟩


/-- C6 counterexample: one successful registration under the empty-string
id (which `Add` accepts).  The claim says `GetPos 0` then returns the
repository registered 0th, but `GetPos` treats the empty id slot as
end-of-input and returns `io.EOF` instead, even though every open
succeeds. -/
theorem c6_counterexample :
    newRepositoryPool.addAll [emptyIdRepo] = .ok poolEmptyId ∧
    poolEmptyId.getPos openAll 0 = .error .eof :=
  ⟨rfl, rfl⟩

/-- C6 (amended): for every pool built from N distinct successful
registrations whose ids are all nonempty, and whose backends all open
successfully, `GetPos i` for i in [0,N) returns the opened handle of the
repository registered i-th — carrying that backend's id — in registration
order, and `GetPos N` signals `io.EOF`. -/
theorem c6_getPos_registration_order (rs : List Repo) (pool : RepositoryPool)
    (g : Repo → Except String Nat) (o : Repo → Nat)
    (hadd : newRepositoryPool.addAll rs = .ok pool)
    (hne : ∀ r ∈ rs, r.id ≠ "")
    (hopen : ∀ r ∈ rs, g r = .ok (o r)) :
    (∀ j (hj : j < rs.length),
      pool.getPos g j = .ok ⟨(rs.get ⟨j, hj⟩).id, o (rs.get ⟨j, hj⟩)⟩) ∧
    pool.getPos g rs.length = .error .eof := by
  obtain ⟨h1, h2⟩ := getPos_addAll rs pool g hadd hne
  refine ⟨?_, h2 rs.length le_rfl⟩
  intro j hj
  rw [h1 j hj, hopen _ (rs.get_mem j hj)]

/-- C6 witness: two registrations "a", "b": `GetPos` visits them in
registration order and `GetPos 2` signals `io.EOF`. -/
theorem c6_witness :
    poolAB.getPos openAll 0 = .ok ⟨"a", 0⟩ ∧
    poolAB.getPos openAll 1 = .ok ⟨"b", 0⟩ ∧
    poolAB.getPos openAll 2 = .error .eof := by
  have h := c6_getPos_registration_order reposW poolAB openAll (fun _ => 0) rfl
    (by decide) (fun r _ => rfl)
  exact ⟨h.1 0 (by decide), h.1 1 (by decide), h.2⟩

/-- C7 counterexample: scanning root "/data" containing "sub/r2.siva"
registers the archive under its FULL path "/data/sub/r2.siva" (used as both
id and path), and nothing is registered under the relative path
"sub/r2.siva" — contradicting the claim that the registration id is the
path relative to the scan root. -/
theorem c7_counterexample :
    RepositoryPool.AddSivaDir fs7 newRepositoryPool "/data" = .ok pool7 ∧
    lookupRepo pool7.repositories "sub/r2.siva" = none :=
  ⟨rfl, rfl⟩

/-- C7 (amended): every archive entry whose name carries the `.siva` suffix
is registered by `addSivaFile` under `filepath.Join(path, f.Name())` — the
scanned directory's full path joined with the file name, used as both id
and path — not under the path relative to the scan root, which the source
computes only for log messages. -/
theorem c7_siva_id_is_full_path (p : RepositoryPool) (root path : String)
    (f : FileEntry) (hsuffix : hasSuffix f.name ".siva" = true)
    (hfresh : lookupRepo p.repositories (pathJoin path f.name) = none) :
    p.addSivaFile root path f =
      ⟨p.repositories ++
          [(pathJoin path f.name,
            sivaRepo (pathJoin path f.name) (pathJoin path f.name))],
        p.idOrder ++ [pathJoin path f.name]⟩ := by
  simp [RepositoryPool.addSivaFile, hsuffix, RepositoryPool.add, sivaRepo, hfresh]

/-- C7 witness: the file "r2.siva" found in scanned directory "/data/sub"
below root "/data" is registered under "/data/sub/r2.siva". -/
theorem c7_witness :
    newRepositoryPool.addSivaFile "/data" "/data/sub" ⟨"r2.siva", false⟩ = pool7 :=
  c7_siva_id_is_full_path newRepositoryPool "/data" "/data/sub"
    ⟨"r2.siva", false⟩ rfl rfl

/-- C8 counterexample: scanning root "/r" whose first entry is a
subdirectory "bad" that cannot be read aborts the whole `AddSivaDir` batch
with the `ReadDir` error; the remaining eligible entry "r1.siva" is never
registered — contradicting the claim that a failure affecting one entry is
logged and skipped and never aborts the rest of the batch. -/
theorem c8_counterexample :
    RepositoryPool.AddSivaDir fs8 newRepositoryPool "/r" =
      .error "permission denied" :=
  rfl

/-- C8 (amended): in `AddDir`, once the root directory itself reads
successfully, per-entry failures are only logged and the loop runs over
every entry, so the batch never aborts (first conjunct); in `AddSivaDir`,
by contrast, a subdirectory whose `ReadDir` fails aborts the scan
immediately with that error and the remaining entries are not registered
(second conjunct).  Non-matching files are skipped in both. -/
theorem c8_addDir_skips_addSivaDir_aborts :
    (∀ (fs : FSModel) (p : RepositoryPool) (strip : Nat) (path : String)
        (dirs : List FileEntry),
      fs.readDir path = .ok dirs →
      p.addDir fs strip path = .ok (addDirLoop fs strip path p dirs)) ∧
    (∀ (fs : FSModel) (p : RepositoryPool) (path : String) (f : FileEntry)
        (rest : List FileEntry) (e : String),
      fs.readDir path = .ok (f :: rest) → f.isDir = true →
      fs.readDir (pathJoin path f.name) = .error e →
      RepositoryPool.AddSivaDir fs p path = .error e) := by
  constructor
  · intro fs p strip path dirs h
    simp [RepositoryPool.addDir, h]
  · intro fs p path f rest e h hdir hsub
    simp [RepositoryPool.AddSivaDir, h, addSivaDirLoop, hdir,
      RepositoryPool.addSivaDirFlat, hsub]

/-- C8 witness: `AddDir` over "/g" — where subdirectory "x" fails to open as
a git repository and "y" opens fine — does not abort, and the loop still
registers "/g/y" (third conjunct); `AddSivaDir` over "/r" aborts on the
unreadable subdirectory. -/
theorem c8_witness :
    newRepositoryPool.addDir fs8b 0 "/g" =
      .ok (addDirLoop fs8b 0 "/g" newRepositoryPool [⟨"x", true⟩, ⟨"y", true⟩]) ∧
    RepositoryPool.AddSivaDir fs8 newRepositoryPool "/r" =
      .error "permission denied" ∧
    addDirLoop fs8b 0 "/g" newRepositoryPool [⟨"x", true⟩, ⟨"y", true⟩] =
      ⟨[("/g/y", gitRepo "/g/y" "/g/y")], ["/g/y"]⟩ :=
  ⟨c8_addDir_skips_addSivaDir_aborts.1 fs8b newRepositoryPool 0 "/g"
      [⟨"x", true⟩, ⟨"y", true⟩] rfl,
   c8_addDir_skips_addSivaDir_aborts.2 fs8 newRepositoryPool "/r" ⟨"bad", true⟩
      [⟨"r1.siva", false⟩] "permission denied" rfl rfl rfl,
   rfl⟩


/-- C1 counterexample: a pool with one successfully registered repository
whose id is the empty string (accepted by `Add`), no cancellation, no
sub-iterator errors, every open succeeding and the factory yielding one row
(k1 = 1).  The claim promises exactly 1 row and then `io.EOF`; the first
`Next()` call already returns `io.EOF` — the empty id slot ends iteration —
so the consumed stream is empty. -/
theorem c1_counterexample :
    newRepositoryPool.addAll [emptyIdRepo] = .ok poolEmptyId ∧
    driveFuel envC1 1 ⟨none, 0, []⟩ = some ([], .eof, ⟨none, 1, []⟩) := by
  refine ⟨rfl, ?_⟩
  rw [driveFuel, next_none_eof envC1 ⟨none, 0, []⟩ rfl rfl rfl]

/-- C1 (amended): for every pool registered from backends with nonempty
(and, by registration, distinct) ids, with every backend opening
successfully and the factory giving each repository a pure-row sub-iterator
(rows `rowsOf` its id), the composite driver consumed by repeated `Next()`
with no cancellation yields exactly the concatenation of the per-repository
row lists — Σki rows, each repository's rows contiguous and in sub-iterator
order, repositories in registration order, no boundary markers — and then
signals `io.EOF`. -/
theorem c1_rows_in_registration_order (rs : List Repo) (pool : RepositoryPool)
    (g : Repo → Except String Nat) (mkIt : Repository → Except GbError SubIter)
    (rowsOf : String → List Row) (skip : Bool)
    (hadd : newRepositoryPool.addAll rs = .ok pool)
    (hne : ∀ r ∈ rs, r.id ≠ "")
    (hopen : ∀ r ∈ rs, ∃ a, g r = .ok a)
    (hmk : ∀ rep : Repository, ∃ sid,
      mkIt rep = .ok ⟨sid, (rowsOf rep.id).map RowEvent.row⟩) :
    driveRuns ⟨pool, g, mkIt, skip, false⟩ ⟨none, 0, []⟩
      ((rs.map fun r => rowsOf r.id).flatten) .eof := by
  have hpool := pool_from_addAll rs pool hadd
  set env : DriverEnv := ⟨pool, g, mkIt, skip, false⟩ with henv
  have hlen : env.pool.repositories.length
      = 0 + (rs.map fun r => some (rowsOf r.id)).length := by
    simp [henv, hpool.1]
  have hspec : ∀ k (hk : k < (rs.map fun r => some (rowsOf r.id)).length),
      SpecOK env (0 + k) ((rs.map fun r => some (rowsOf r.id)).get ⟨k, hk⟩) := by
    intro k hk
    have hk' : k < rs.length := by simpa using hk
    obtain ⟨a, ha⟩ := hopen _ (rs.get_mem k hk')
    have hgp := (getPos_addAll rs pool g hadd hne).1 k hk'
    rw [ha] at hgp
    replace hgp : pool.getPos g k = .ok ⟨(rs.get ⟨k, hk'⟩).id, a⟩ := hgp
    obtain ⟨sid, hmkk⟩ := hmk ⟨(rs.get ⟨k, hk'⟩).id, a⟩
    have hget : (rs.map fun r => some (rowsOf r.id)).get ⟨k, hk⟩
        = some (rowsOf (rs.get ⟨k, hk'⟩).id) := by
      simp
    rw [hget]
    show goodAt env (0 + k) (rowsOf (rs.get ⟨k, hk'⟩).id)
    refine ⟨⟨(rs.get ⟨k, hk'⟩).id, a⟩, sid, ?_, hmkk⟩
    show env.pool.getPos env.gitOpen (0 + k) = _
    rw [Nat.zero_add]
    exact hgp
  obtain ⟨n, stF, hrun⟩ :=
    driveFuel_specs env rfl (rs.map fun r => some (rowsOf r.id)) 0 [] hlen hspec
  unfold driveRuns
  refine ⟨n, stF, fun m hm => ?_⟩
  have hmono := driveFuel_mono n env ⟨none, 0, []⟩ _ hrun m hm
  have hfl : ((rs.map fun r => some (rowsOf r.id)).map (fun s => s.getD [])).flatten
      = (rs.map fun r => rowsOf r.id).flatten := by
    simp [List.map_map, Function.comp_def]
  rw [← hfl]
  exact hmono

/-- C1 witness: the claim's own scenario — pool ids ["a", "b"], "a" yields
rows [1, 2], "b" yields [3]: the composite `Next()` sequence is 1, 2, 3,
then `io.EOF`. -/
theorem c1_witness :
    driveRuns ⟨poolAB, openAll, mkItW, false, false⟩ ⟨none, 0, []⟩ [1, 2, 3] .eof := by
  have h := c1_rows_in_registration_order reposW poolAB openAll mkItW rowsOfW false
    rfl (by decide) (fun r _ => ⟨0, rfl⟩) (fun rep => ⟨0, rfl⟩)
  have hfl : (reposW.map fun r => rowsOfW r.id).flatten = [1, 2, 3] := by decide
  rwa [hfl] at h


/-- C3 counterexample: a pool of two registered repositories — the first
under the empty-string id (opening fine, its sub-iterator yielding row 1),
the second ("b") failing to open — with fault tolerance enabled and no
cancellation.  The claim promises the union of the remaining repository's
rows, [1]; instead the very first `Next()` returns `io.EOF` (the empty id
slot ends iteration) and the consumed stream is empty. -/
theorem c3_counterexample :
    newRepositoryPool.addAll [emptyIdRepo, repoB] = .ok poolEmptyIdB ∧
    driveFuel envC3 1 ⟨none, 0, []⟩ = some ([], .eof, ⟨none, 1, []⟩) := by
  refine ⟨rfl, ?_⟩
  rw [driveFuel, next_none_eof envC3 ⟨none, 0, []⟩ rfl rfl rfl]

/-- C3 (amended): for every pool registered from backends with nonempty
ids, of which exactly one (`rb`, between prefix `as` and suffix `bs`)
fails — its open errs, or the factory rejects its opened handle — while all
the others open successfully and receive pure-row sub-iterators, the
composite driver with fault tolerance enabled and no cancellation yields
exactly the union of the remaining repositories' rows, in registration
order, and the failure never surfaces: the stream ends in plain `io.EOF`. -/
theorem c3_fault_tolerance_skips_failing (as bs : List Repo) (rb : Repo)
    (pool : RepositoryPool) (g : Repo → Except String Nat)
    (mkIt : Repository → Except GbError SubIter) (rowsOf : String → List Row)
    (hadd : newRepositoryPool.addAll (as ++ rb :: bs) = .ok pool)
    (hne : ∀ r ∈ as ++ rb :: bs, r.id ≠ "")
    (hopen : ∀ r ∈ as ++ bs, ∃ a, g r = .ok a)
    (hmk : ∀ rep : Repository, rep.id ≠ rb.id →
      ∃ sid, mkIt rep = .ok ⟨sid, (rowsOf rep.id).map RowEvent.row⟩)
    (hfail : (∃ e, g rb = .error e) ∨
      (∃ a e, g rb = .ok a ∧ mkIt ⟨rb.id, a⟩ = .error e)) :
    driveRuns ⟨pool, g, mkIt, true, false⟩ ⟨none, 0, []⟩
      (((as ++ bs).map fun r => rowsOf r.id).flatten) .eof := by
  have hpool := pool_from_addAll (as ++ rb :: bs) pool hadd
  have hnd := hpool.2.2
  rw [List.map_append, List.map_cons] at hnd
  have hnd' := List.nodup_append.mp hnd
  have hid_as : ∀ r ∈ as, r.id ≠ rb.id := by
    intro r hr hEq
    exact hnd'.2.2 (List.mem_map_of_mem Repo.id hr) (hEq ▸ List.mem_cons_self rb.id _)
  have hid_bs : ∀ r ∈ bs, r.id ≠ rb.id := by
    intro r hr hEq
    exact (List.nodup_cons.mp hnd'.2.1).1 (hEq ▸ List.mem_map_of_mem Repo.id hr)
  set env : DriverEnv := ⟨pool, g, mkIt, true, false⟩ with henv
  set specs : List (Option (List Row)) :=
    (as.map fun r => some (rowsOf r.id)) ++ none :: (bs.map fun r => some (rowsOf r.id))
    with hspecs
  have hslen : specs.length = as.length + (bs.length + 1) := by
    simp [hspecs]
  have hrslen : (as ++ rb :: bs).length = as.length + (bs.length + 1) := by
    simp
  have hlen : env.pool.repositories.length = 0 + specs.length := by
    show pool.repositories.length = 0 + specs.length
    rw [hpool.1, hslen]
    simp [hrslen]
  have hgp := (getPos_addAll (as ++ rb :: bs) pool g hadd hne).1
  have hspec : ∀ k (hk : k < specs.length),
      SpecOK env (0 + k) (specs.get ⟨k, hk⟩) := by
    intro k hk
    have hkT : k < as.length + (bs.length + 1) := by rwa [hslen] at hk
    have hk' : k < (as ++ rb :: bs).length := by rw [hrslen]; omega
    rcases Nat.lt_trichotomy k as.length with hlt | heq | hgt
    · -- a position in the prefix `as`
      have hAk : specs.get ⟨k, hk⟩ = some (rowsOf as[k].id) := by
        simp only [List.get_eq_getElem, hspecs]
        rw [List.getElem_append_left (by simpa using hlt)]
        simp
      have hrsk : (as ++ rb :: bs)[k] = as[k] := List.getElem_append_left hlt
      obtain ⟨a, ha⟩ := hopen as[k] (List.mem_append_left bs (List.getElem_mem hlt))
      have hgpk := hgp k hk'
      rw [List.get_eq_getElem, hrsk, ha] at hgpk
      replace hgpk : pool.getPos g k = .ok ⟨as[k].id, a⟩ := hgpk
      obtain ⟨sid, hmkk⟩ := hmk ⟨as[k].id, a⟩ (hid_as _ (List.getElem_mem hlt))
      rw [hAk]
      show goodAt env (0 + k) (rowsOf as[k].id)
      refine ⟨⟨as[k].id, a⟩, sid, ?_, hmkk⟩
      show env.pool.getPos env.gitOpen (0 + k) = _
      rw [Nat.zero_add]
      exact hgpk
    · -- the failing position
      subst heq
      have hS : specs.get ⟨as.length, hk⟩ = none := by
        simp only [List.get_eq_getElem, hspecs]
        rw [List.getElem_append_right (by simp)]
        simp
      have hrsk : (as ++ rb :: bs)[as.length] = rb := by
        rw [List.getElem_append_right (le_refl as.length)]
        simp
      have hgpk := hgp as.length hk'
      rw [List.get_eq_getElem, hrsk] at hgpk
      rw [hS]
      show env.skipGitErrors = true ∧ badAt env (0 + as.length)
      refine ⟨rfl, ?_⟩
      rcases hfail with ⟨e, hge⟩ | ⟨a, e, hga, hmke⟩
      · left
        refine ⟨.gitErr e, ?_, by simp⟩
        show env.pool.getPos env.gitOpen (0 + as.length) = _
        rw [Nat.zero_add]
        rw [hge] at hgpk
        exact hgpk
      · right
        refine ⟨⟨rb.id, a⟩, e, ?_, hmke⟩
        show env.pool.getPos env.gitOpen (0 + as.length) = _
        rw [Nat.zero_add]
        rw [hga] at hgpk
        exact hgpk
    · -- a position in the suffix `bs`
      obtain ⟨i, rfl⟩ : ∃ i, k = as.length + 1 + i := ⟨k - as.length - 1, by omega⟩
      have hi : i < bs.length := by omega
      have hS : specs.get ⟨as.length + 1 + i, hk⟩ = some (rowsOf bs[i].id) := by
        simp only [List.get_eq_getElem, hspecs]
        rw [List.getElem_append_right (by simp; omega)]
        have hidx : as.length + 1 + i - (as.map fun r => some (rowsOf r.id)).length
            = i + 1 := by
          simp only [List.length_map]
          omega
        simp only [hidx, List.getElem_cons_succ]
        simp
      have hrsk : (as ++ rb :: bs)[as.length + 1 + i] = bs[i] := by
        rw [List.getElem_append_right (by omega)]
        have hidx : as.length + 1 + i - as.length = i + 1 := by omega
        simp only [hidx, List.getElem_cons_succ]
      obtain ⟨a, ha⟩ := hopen bs[i] (List.mem_append_right as (List.getElem_mem hi))
      have hgpk := hgp (as.length + 1 + i) hk'
      rw [List.get_eq_getElem, hrsk, ha] at hgpk
      replace hgpk : pool.getPos g (as.length + 1 + i) = .ok ⟨bs[i].id, a⟩ := hgpk
      obtain ⟨sid, hmkk⟩ := hmk ⟨bs[i].id, a⟩ (hid_bs _ (List.getElem_mem hi))
      rw [hS]
      show goodAt env (0 + (as.length + 1 + i)) (rowsOf bs[i].id)
      refine ⟨⟨bs[i].id, a⟩, sid, ?_, hmkk⟩
      show env.pool.getPos env.gitOpen (0 + (as.length + 1 + i)) = _
      rw [Nat.zero_add]
      exact hgpk
  obtain ⟨n, stF, hrun⟩ := driveFuel_specs env rfl specs 0 [] hlen hspec
  unfold driveRuns
  refine ⟨n, stF, fun m hm => ?_⟩
  have hmono := driveFuel_mono n env ⟨none, 0, []⟩ _ hrun m hm
  have hfl : (specs.map (fun s => s.getD [])).flatten
      = ((as ++ bs).map fun r => rowsOf r.id).flatten := by
    simp [hspecs, List.map_map, Function.comp_def]
  rw [← hfl]
  exact hmono

/-- C3 witness: three registrations "a", "b", "c" where "b" fails to open,
fault tolerance on: the stream is the union [1, 2] of the two surviving
repositories' rows, ending in `io.EOF` with the failure never surfaced. -/
theorem c3_witness :
    driveRuns ⟨poolC3W, openFailB, mkItC3W, true, false⟩ ⟨none, 0, []⟩ [1, 2] .eof := by
  have h := c3_fault_tolerance_skips_failing [gitRepo "a" "/pa"] [gitRepo "c" "/pc"]
    (gitRepo "b" "/pb") poolC3W openFailB mkItC3W rowsOfC3W rfl (by decide)
    (by
      intro r hr
      simp at hr
      rcases hr with rfl | rfl
      · exact ⟨0, rfl⟩
      · exact ⟨0, rfl⟩)
    (fun rep _ => ⟨0, rfl⟩)
    (Or.inl ⟨"cannot open", rfl⟩)
  have hfl : (([gitRepo "a" "/pa"] ++ [gitRepo "c" "/pc"]).map
      fun r => rowsOfC3W r.id).flatten = [1, 2] := by decide
  rwa [hfl] at h

end Gitbase
